import Mathlib

/-!
Shallow embedding of `src/providers/reliable.rs` (CrabClaw): the reliable
invocation engine wrapping an ordered provider list with a response cache,
per-provider circuit breakers, retry/fallback and optional hedging.

Modelling conventions:
* `Instant` is a natural number of milliseconds; `Duration::from_secs(t)`
  becomes `t * 1000`.
* `u64` stats counters use wrapping addition (`inc64`); `u32`
  `consecutive_failures` uses saturating addition (`satAdd32`), as in Rust.
* The cache `HashMap` is modelled as an association list kept in insertion
  order; `insert` replaces in place or appends at the end.  Capacity
  eviction (stable sort by `inserted_at`, drop the first `len - max`)
  is modelled equivalently as repeatedly removing the first entry holding
  the minimal `inserted_at` until the bound holds (the stable sort's
  removed prefix is exactly that sequence; the Rust `HashMap` iteration
  order that seeds the stable sort is resolved to insertion order).
* Provider invocations and the hedge race are resolved by a `World`
  oracle: `call i k` is the outcome of the `k`-th invocation of provider
  `i`, and `hedgeWins n` says whether the hedge side of the `n`-th hedged
  launch completes first.  Time is frozen at `now` for the duration of one
  logical request (every `Instant::now()` in the run reads `now`).
* The single-flight registry is modelled for the uncontended leader path
  (the registry operations have no effect on the claims below).
-/

/-- Wrapping increment of a `u64` counter (`fetch_add(1)`). -/
def inc64 (n : Nat) : Nat := (n + 1) % (2 ^ 64)

/-- Saturating increment of a `u32` (`saturating_add(1)`). -/
def satAdd32 (n : Nat) : Nat := min (n + 1) (2 ^ 32 - 1)

/-! ## Error classifier -/

/-- Digit runs of a character list, splitting at every non-ASCII-digit
character and keeping empty pieces, as Rust's
`msg.split(|c: char| !c.is_ascii_digit())` does. -/
def splitNonDigit : List Char → List (List Char)
  | [] => [[]]
  | c :: rest =>
    let r := splitNonDigit rest
    if c.isDigit then
      match r with
      | [] => [[c]]
      | w :: ws => (c :: w) :: ws
    else
      [] :: r

/-- Numeric value of a digit run. -/
def digitsVal (cs : List Char) : Nat :=
  cs.foldl (fun a c => a * 10 + (c.toNat - 48)) 0

/-- Rust `word.parse::<u16>()` on an all-digit word: fails on the empty
word and on overflow past `u16::MAX`. -/
def parseU16 (cs : List Char) : Option Nat :=
  if cs.isEmpty then none
  else if digitsVal cs ≤ 65535 then some (digitsVal cs) else none

/-- Typed information carried by a `reqwest::Error`, as far as the
classifier inspects it. -/
structure ReqwestInfo where
  status : Option Nat
  timeout : Bool
deriving DecidableEq

/-- An `anyhow::Error`: optionally a downcastable `reqwest::Error`, plus
its `Display` rendering. -/
structure AnyErr where
  reqwest : Option ReqwestInfo
  msg : String
deriving DecidableEq

/-- String-scanning arm of `is_non_retryable`: walk the digit runs of the
message; at the first run parsing to a value in `[400, 500)` decide by the
408/429 exception; otherwise keep scanning; default `false`. -/
def scanNonRetryable : List (List Char) → Bool
  | [] => false
  | w :: ws =>
    match parseU16 w with
    | some code =>
      if 400 ≤ code ∧ code < 500 then decide (code ≠ 429 ∧ code ≠ 408)
      else scanNonRetryable ws
    | none => scanNonRetryable ws

/-- `is_non_retryable` from `reliable.rs`: a typed HTTP status decides
directly (client error and neither 429 nor 408); otherwise the message is
scanned for digit runs. -/
def is_non_retryable (e : AnyErr) : Bool :=
  match e.reqwest with
  | some r =>
    match r.status with
    | some code => decide (400 ≤ code ∧ code ≤ 499 ∧ code ≠ 429 ∧ code ≠ 408)
    | none => scanNonRetryable (splitNonDigit e.msg.toList)
  | none => scanNonRetryable (splitNonDigit e.msg.toList)

/-- Whether `pat` starts `hay`. -/
def startsList : List Char → List Char → Bool
  | _, [] => true
  | [], _ :: _ => false
  | a :: as, b :: bs => a == b && startsList as bs

/-- Whether `pat` occurs contiguously inside `hay`. -/
def containsSeq (pat : List Char) : List Char → Bool
  | [] => pat.isEmpty
  | c :: rest => startsList (c :: rest) pat || containsSeq pat rest

/-- `ReliableProvider::is_timeout_error`: a typed `reqwest` error answers
via its timeout flag; otherwise the lowercased message is searched for
"timeout" or "timed out". -/
def is_timeout_error (e : AnyErr) : Bool :=
  match e.reqwest with
  | some r => r.timeout
  | none =>
    let m := e.msg.toList.map Char.toLower
    containsSeq "timeout".toList m || containsSeq "timed out".toList m

/-! ## Environment parsing in `ReliableProvider::new` -/

/-- Rust `s.parse::<u64>()` / `parse::<usize>()` on a 64-bit target:
an optional leading `+`, then a non-empty digit string, failing on
overflow. -/
def parse_env_nat (s : String) : Option Nat :=
  let cs := s.toList
  let cs := match cs with
    | '+' :: rest => rest
    | _ => cs
  if cs.isEmpty then none
  else if cs.all (·.isDigit) then
    if digitsVal cs < 2 ^ 64 then some (digitsVal cs) else none
  else none

/-- Effective cache capacity derived from the
`CRABCLAW_PROVIDER_CACHE_MAX_ENTRIES` environment value:
`var.ok().and_then(parse).filter(|v| *v > 0).unwrap_or(256)`. -/
def cache_max_entries_from_env (v : Option String) : Nat :=
  match v.bind parse_env_nat with
  | some n => if n > 0 then n else 256
  | none => 256

/-- Effective cache TTL (seconds) derived from the
`CRABCLAW_PROVIDER_CACHE_TTL_SECS` environment value (no filter). -/
def cache_ttl_secs_from_env (v : Option String) : Nat :=
  match v.bind parse_env_nat with
  | some n => n
  | none => 120

/-! ## Data model -/

/-- Per-provider circuit breaker state. -/
structure CircuitState where
  consecutive_failures : Nat
  open_until : Option Nat
deriving DecidableEq

/-- `CircuitState::healthy()`. -/
def CircuitState.healthy : CircuitState := ⟨0, none⟩

/-- One response-cache entry. -/
structure CacheEntry where
  response : String
  inserted_at : Nat
deriving DecidableEq

/-- Engine configuration frozen at construction. -/
structure Config where
  max_retries : Nat
  base_backoff_ms : Nat
  circuit_breaker_failure_threshold : Nat
  circuit_breaker_cooldown_ms : Nat
  cache_ttl_secs : Nat
  cache_max_entries : Nat
  hedge_enabled : Bool
  hedge_delay_ms : Nat
deriving DecidableEq

/-- Mutable engine state: the circuit table, the response cache, and the
eleven stats counters. -/
structure EngineState where
  circuits : List (String × CircuitState)
  cache : List (String × CacheEntry)
  total_calls : Nat
  retry_count : Nat
  timeout_count : Nat
  cache_hits : Nat
  cache_lookups : Nat
  coalesced_wait_count : Nat
  hedge_launch_count : Nat
  hedge_win_count : Nat
  cb_open_count : Nat
  cb_half_open_count : Nat
  cb_close_count : Nat
deriving DecidableEq

/-- State of a freshly constructed engine. -/
def initState : EngineState :=
  ⟨[], [], 0, 0, 0, 0, 0, 0, 0, 0, 0, 0, 0⟩

/-- First binding of `key` in an association list. -/
def lookupA {α : Type} : List (String × α) → String → Option α
  | [], _ => none
  | (k, v) :: t, key => if k = key then some v else lookupA t key

/-- Replace the binding of `key` in place, or append it at the end
(`HashMap::insert` / `entry().or_insert` materialisation). -/
def setA {α : Type} : List (String × α) → String → α → List (String × α)
  | [], key, v => [(key, v)]
  | (k, w) :: t, key, v =>
    if k = key then (key, v) :: t else (k, w) :: setA t key v

/-- Circuit state for a provider, defaulting to healthy
(`entry().or_insert_with(CircuitState::healthy)`). -/
def getCircuit (cs : List (String × CircuitState)) (name : String) : CircuitState :=
  match lookupA cs name with
  | some s => s
  | none => CircuitState.healthy

/-! ## Circuit breaker operations -/

/-- `circuit_allows_call`: an absent or `None`-`open_until` state admits
the call; an unelapsed `open_until` refuses it; an elapsed one transitions
to half-open (clear `open_until`, zero the failures, bump the half-open
counter) and admits it. -/
def circuit_allows_call (now : Nat) (name : String) (st : EngineState) :
    Bool × EngineState :=
  let s := getCircuit st.circuits name
  match s.open_until with
  | some u =>
    if now < u then
      (false, { st with circuits := setA st.circuits name s })
    else
      (true, { st with
        circuits := setA st.circuits name ⟨0, none⟩,
        cb_half_open_count := inc64 st.cb_half_open_count })
  | none => (true, { st with circuits := setA st.circuits name s })

/-- `circuit_record_success`: reset both fields; bump the close counter
only when the state was open or carried failures. -/
def circuit_record_success (name : String) (st : EngineState) : EngineState :=
  let s := getCircuit st.circuits name
  let shouldClose := s.open_until.isSome || decide (s.consecutive_failures > 0)
  let st' := { st with circuits := setA st.circuits name ⟨0, none⟩ }
  if shouldClose then { st' with cb_close_count := inc64 st.cb_close_count }
  else st'

/-- `circuit_record_failure`: saturating-increment the failure count; at
the threshold set `open_until := now + cooldown`, bumping the open counter
only when the state was not currently open (`open_until` absent or already
elapsed). -/
def circuit_record_failure (cfg : Config) (now : Nat) (name : String)
    (st : EngineState) : EngineState :=
  let s := getCircuit st.circuits name
  let f := satAdd32 s.consecutive_failures
  if f ≥ cfg.circuit_breaker_failure_threshold then
    let shouldOpen :=
      match s.open_until with
      | none => true
      | some u => decide (u ≤ now)
    let opened := setA st.circuits name ⟨f, some (now + cfg.circuit_breaker_cooldown_ms)⟩
    let st' := { st with circuits := opened }
    if shouldOpen then { st' with cb_open_count := inc64 st.cb_open_count }
    else st'
  else
    { st with circuits := setA st.circuits name ⟨f, s.open_until⟩ }

/-! ## Response cache -/

/-- TTL sweep executed under the cache lock on every read:
`cache.retain(|_, v| now.duration_since(v.inserted_at) <= ttl)`
(`duration_since` saturates at zero, as does `Nat` subtraction). -/
def sweep (ttl_ms now : Nat) (c : List (String × CacheEntry)) :
    List (String × CacheEntry) :=
  c.filter (fun kv => now - kv.2.inserted_at ≤ ttl_ms)

/-- `cache_get` acting on the cache table: disabled when either parameter
is zero; otherwise sweep, then look the key up. -/
def cache_get_c (cfg : Config) (now : Nat) (key : String)
    (c : List (String × CacheEntry)) : Option String × List (String × CacheEntry) :=
  if cfg.cache_ttl_secs = 0 ∨ cfg.cache_max_entries = 0 then (none, c)
  else
    let c' := sweep (cfg.cache_ttl_secs * 1000) now c
    ((lookupA c' key).map (·.response), c')

/-- Minimal `inserted_at` of a cache table (0 on the empty table; only
used on non-empty tables). -/
def minTs : List (String × CacheEntry) → Nat
  | [] => 0
  | [kv] => kv.2.inserted_at
  | kv :: t => min kv.2.inserted_at (minTs t)

/-- Remove the first entry whose `inserted_at` equals `m`. -/
def removeFirstWithTs (m : Nat) : List (String × CacheEntry) →
    List (String × CacheEntry)
  | [] => []
  | kv :: t => if kv.2.inserted_at = m then t else kv :: removeFirstWithTs m t

/-- Fuelled capacity eviction: while the table exceeds `maxE`, remove the
first entry with the minimal `inserted_at`.  This is the stable
sort-by-`inserted_at`-and-drop-the-oldest-prefix of `cache_put`, expressed
one removal at a time. -/
def evictFuel (maxE : Nat) : Nat → List (String × CacheEntry) →
    List (String × CacheEntry)
  | 0, c => c
  | fuel + 1, c =>
    if c.length ≤ maxE then c
    else evictFuel maxE fuel (removeFirstWithTs (minTs c) c)

/-- Capacity eviction of `cache_put` (fuel instantiated to the length). -/
def evictOldest (maxE : Nat) (c : List (String × CacheEntry)) :
    List (String × CacheEntry) :=
  evictFuel maxE c.length c

/-- `cache_put` acting on the cache table: disabled when either parameter
is zero; otherwise insert at `now` and evict the oldest entries while the
capacity is exceeded. -/
def cache_put_c (cfg : Config) (now : Nat) (key resp : String)
    (c : List (String × CacheEntry)) : List (String × CacheEntry) :=
  if cfg.cache_ttl_secs = 0 ∨ cfg.cache_max_entries = 0 then c
  else
    let c' := setA c key ⟨resp, now⟩
    if c'.length > cfg.cache_max_entries then evictOldest cfg.cache_max_entries c'
    else c'

/-- Engine-level `cache_put`. -/
def cache_put (cfg : Config) (now : Nat) (key resp : String)
    (st : EngineState) : EngineState :=
  { st with cache := cache_put_c cfg now key resp st.cache }

/-! ## Invocation pipeline -/

/-- Resolution of the environment outside the engine: `call i k` is the
outcome of the `k`-th invocation of provider `i`, and `hedgeWins n` says
whether the hedge side of the `n`-th hedged launch resolves first in the
`select`. -/
structure World where
  call : Nat → Nat → Except AnyErr String
  hedgeWins : Nat → Bool

/-- Ghost trace of one failure-list entry: a real failed attempt
(provider name, 0-based attempt index, error) or a circuit-open skip. -/
inductive FailEvent where
  | attemptFail (name : String) (attemptIdx : Nat) (e : AnyErr)
  | skip (name : String)
deriving DecidableEq

/-- Accumulator threaded through the provider loop: the failure strings
exactly as the code pushes them, the ghost event trace, the ordered log of
provider indices actually invoked, and the engine state. -/
structure LoopSt where
  failures : List String
  events : List FailEvent
  log : List Nat
  st : EngineState
deriving DecidableEq

/-- Apply an engine-state update inside the loop accumulator. -/
def LoopSt.mapSt (f : EngineState → EngineState) (ls : LoopSt) : LoopSt :=
  { ls with st := f ls.st }

/-- Failure line pushed by a failed attempt:
`"{provider_name} attempt {attempt+1}/{max_retries+1}: {e}"`. -/
def attemptLine (cfg : Config) (name : String) (attempt : Nat) (e : AnyErr) :
    String :=
  name ++ " attempt " ++ toString (attempt + 1) ++ "/" ++
    toString (cfg.max_retries + 1) ++ ": " ++ e.msg

/-- Increment `total_calls` (start of every attempt). -/
def bumpTotal (ls : LoopSt) : LoopSt :=
  ls.mapSt (fun st => { st with total_calls := inc64 st.total_calls })

/-- Hedge eligibility of an attempt: hedging on, attempt 0, a next
provider exists, and — evaluated only then, with its half-open side
effect — that provider's breaker admits a call. -/
def hedgeGate (cfg : Config) (now : Nat) (names : List String)
    (idx attempt : Nat) (ls : LoopSt) : Bool × LoopSt :=
  if cfg.hedge_enabled && attempt == 0 && idx + 1 < names.length then
    let p := circuit_allows_call now (names.getD (idx + 1) "") ls.st
    (p.1, { ls with st := p.2 })
  else (false, ls)

/-- Resolve the attempt's outcome: on a hedged attempt count the launch
and let the `select` winner (per the world's schedule) supply the result;
otherwise invoke the current provider directly.  Returns the winner's
name, the outcome, and the updated accumulator (log extended by the
provider actually invoked). -/
def pickOutcome (w : World) (names : List String) (idx : Nat) (name : String)
    (useHedge : Bool) (ls : LoopSt) : String × Except AnyErr String × LoopSt :=
  if useHedge then
    let hedgeName := names.getD (idx + 1) ""
    let launchNo := ls.st.hedge_launch_count
    let ls := ls.mapSt (fun st => { st with hedge_launch_count := inc64 st.hedge_launch_count })
    if w.hedgeWins launchNo then
      (hedgeName, w.call (idx + 1) (ls.log.count (idx + 1)),
        { ls with log := ls.log ++ [idx + 1] })
    else
      (name, w.call idx (ls.log.count idx), { ls with log := ls.log ++ [idx] })
  else
    (name, w.call idx (ls.log.count idx), { ls with log := ls.log ++ [idx] })

/-- Count a hedge win when the winner carries the hedge provider's name
(`if winner == hedge_name`). -/
def hedgeWinBump (names : List String) (idx : Nat) (useHedge : Bool)
    (winnerName : String) (ls : LoopSt) : LoopSt :=
  if useHedge ∧ winnerName = names.getD (idx + 1) "" then
    ls.mapSt (fun st => { st with hedge_win_count := inc64 st.hedge_win_count })
  else ls

/-- Retry loop body for one provider (`for attempt in 0..=max_retries`),
fuelled by the number of attempts remaining; returns the response on
success, `none` when the provider's turn is exhausted. -/
def runAttempts (cfg : Config) (w : World) (now : Nat) (names : List String)
    (idx : Nat) (name : String) (key : String) :
    Nat → Nat → LoopSt → Option String × LoopSt
  | _, 0, ls => (none, ls)
  | attempt, fuel + 1, ls =>
    let ls := bumpTotal ls
    let d := hedgeGate cfg now names idx attempt ls
    let t := pickOutcome w names idx name d.1 d.2
    let ls := hedgeWinBump names idx d.1 t.1 t.2.2
    match t.2.1 with
    | .ok resp =>
      let ls := ls.mapSt (circuit_record_success name)
      let ls := ls.mapSt (cache_put cfg now key resp)
      (some resp, ls)
    | .error e =>
      let nonRetryable := is_non_retryable e
      let ls :=
        if is_timeout_error e then
          ls.mapSt (fun st => { st with timeout_count := inc64 st.timeout_count })
        else ls
      let ls := { ls with
        failures := ls.failures ++ [attemptLine cfg name attempt e],
        events := ls.events ++ [FailEvent.attemptFail name attempt e] }
      let ls := ls.mapSt (circuit_record_failure cfg now name)
      if nonRetryable then (none, ls)
      else if attempt < cfg.max_retries then
        let ls := ls.mapSt (fun st => { st with retry_count := inc64 st.retry_count })
        runAttempts cfg w now names idx name key (attempt + 1) fuel ls
      else (none, ls)

/-- Ordered fallback loop over the providers: skip an open-breaker
provider with a `"{name}: circuit open"` notation, otherwise run its
retry loop; stop at the first success. -/
def providerLoop (cfg : Config) (w : World) (now : Nat) (names : List String)
    (key : String) : Nat → List String → LoopSt → Option String × LoopSt
  | _, [], ls => (none, ls)
  | idx, name :: rest, ls =>
    let (allowed, st') := circuit_allows_call now name ls.st
    let ls := { ls with st := st' }
    if allowed then
      match runAttempts cfg w now names idx name key 0 (cfg.max_retries + 1) ls with
      | (some resp, ls') => (some resp, ls')
      | (none, ls') => providerLoop cfg w now names key (idx + 1) rest ls'
    else
      let ls := { ls with
        failures := ls.failures ++ [name ++ ": circuit open"],
        events := ls.events ++ [FailEvent.skip name] }
      providerLoop cfg w now names key (idx + 1) rest ls

deriving instance DecidableEq for Except

/-- Outcome of one logical request. -/
structure RunOut where
  result : Except String String
  state : EngineState
  log : List Nat
  events : List FailEvent
deriving DecidableEq

/-- One logical request through `chat_with_system` / `chat_with_history`
(the two differ only in fingerprint construction, which is abstracted into
`key`): count the lookup, consult the cache, and on a miss walk the
provider list as the single-flight leader; when every provider is
exhausted, fail with the aggregated error message. -/
def chat_request (cfg : Config) (w : World) (now : Nat) (names : List String)
    (key : String) (st : EngineState) : RunOut :=
  let st := { st with cache_lookups := inc64 st.cache_lookups }
  let (hit, c') := cache_get_c cfg now key st.cache
  let st := { st with cache := c' }
  match hit with
  | some r =>
    { result := .ok r,
      state := { st with cache_hits := inc64 st.cache_hits },
      log := [], events := [] }
  | none =>
    let ls : LoopSt := { failures := [], events := [], log := [], st := st }
    match providerLoop cfg w now names key 0 names ls with
    | (some resp, ls') =>
      { result := .ok resp, state := ls'.st, log := ls'.log, events := ls'.events }
    | (none, ls') =>
      { result := .error ("All providers failed. Attempts:\n" ++
          String.intercalate "\n" ls'.failures),
        state := ls'.st, log := ls'.log, events := ls'.events }

/-! ## Basic lemmas about the association-list operations -/

theorem lookupA_setA_self {α : Type} (l : List (String × α)) (k : String) (v : α) :
    lookupA (setA l k v) k = some v := by
  induction l with
  | nil => simp [setA, lookupA]
  | cons kv t ih =>
    obtain ⟨k', w⟩ := kv
    by_cases h : k' = k
    · simp [setA, lookupA, h]
    · simp [setA, lookupA, h, ih]

theorem lookupA_setA_ne {α : Type} (l : List (String × α)) (k k' : String) (v : α)
    (h : k' ≠ k) : lookupA (setA l k v) k' = lookupA l k' := by
  induction l with
  | nil => simp [setA, lookupA, Ne.symm h]
  | cons kv t ih =>
    obtain ⟨k₀, w⟩ := kv
    by_cases h0 : k₀ = k
    · subst h0
      simp [setA, lookupA, Ne.symm h]
    · simp [setA, lookupA, h0, ih]

theorem setA_setA {α : Type} (l : List (String × α)) (k : String) (v v' : α) :
    setA (setA l k v) k v' = setA l k v' := by
  induction l with
  | nil => simp [setA]
  | cons kv t ih =>
    obtain ⟨k₀, w⟩ := kv
    by_cases h : k₀ = k
    · simp [setA, h]
    · simp [setA, h, ih]

theorem getCircuit_setA_self (cs : List (String × CircuitState)) (k : String)
    (v : CircuitState) : getCircuit (setA cs k v) k = v := by
  simp [getCircuit, lookupA_setA_self]

theorem getCircuit_setA_ne (cs : List (String × CircuitState)) (k k' : String)
    (v : CircuitState) (h : k' ≠ k) : getCircuit (setA cs k v) k' = getCircuit cs k' := by
  simp [getCircuit, lookupA_setA_ne _ _ _ _ h]

/-! ## Field-frame lemmas -/

@[simp] theorem LoopSt.mapSt_failures (f : EngineState → EngineState) (ls : LoopSt) :
    (ls.mapSt f).failures = ls.failures := rfl

@[simp] theorem LoopSt.mapSt_events (f : EngineState → EngineState) (ls : LoopSt) :
    (ls.mapSt f).events = ls.events := rfl

@[simp] theorem LoopSt.mapSt_log (f : EngineState → EngineState) (ls : LoopSt) :
    (ls.mapSt f).log = ls.log := rfl

@[simp] theorem LoopSt.mapSt_st (f : EngineState → EngineState) (ls : LoopSt) :
    (ls.mapSt f).st = f ls.st := rfl

@[simp] theorem cache_put_circuits (cfg : Config) (now : Nat) (k r : String)
    (st : EngineState) : (cache_put cfg now k r st).circuits = st.circuits := rfl

@[simp] theorem circuit_record_success_cache (n : String) (st : EngineState) :
    (circuit_record_success n st).cache = st.cache := by
  simp only [circuit_record_success]
  split <;> rfl

@[simp] theorem circuit_record_success_circuits (n : String) (st : EngineState) :
    (circuit_record_success n st).circuits = setA st.circuits n ⟨0, none⟩ := by
  simp only [circuit_record_success]
  split <;> rfl

@[simp] theorem circuit_record_failure_cache (cfg : Config) (now : Nat) (n : String)
    (st : EngineState) : (circuit_record_failure cfg now n st).cache = st.cache := by
  simp only [circuit_record_failure]
  split <;> (first | rfl | (split <;> rfl))

@[simp] theorem circuit_allows_call_cache (now : Nat) (n : String) (st : EngineState) :
    (circuit_allows_call now n st).2.cache = st.cache := by
  simp only [circuit_allows_call]
  split <;> (first | rfl | (split <;> rfl))

/-! ## Claim C5: the error classifier -/

/-- Typed HTTP status usable by the classifier, when present. -/
def typedStatus (e : AnyErr) : Option Nat := e.reqwest.bind (·.status)

/-- Modelled from the spec: the first ASCII digit run of the message that
parses to an integer in `[400, 500)`. -/
def firstClientCode (msg : String) : Option Nat :=
  ((splitNonDigit msg.toList).filterMap parseU16).find?
    (fun c => decide (400 ≤ c ∧ c < 500))

/-- Modelled from the spec: non-retryable iff a typed 4xx status other
than 408/429, or, absent a usable typed status, a first in-range digit run
other than 408/429. -/
def nonRetryableSpec (e : AnyErr) : Prop :=
  (∃ c, typedStatus e = some c ∧ 400 ≤ c ∧ c < 500 ∧ c ≠ 408 ∧ c ≠ 429) ∨
  (typedStatus e = none ∧
    ∃ c, firstClientCode e.msg = some c ∧ c ≠ 408 ∧ c ≠ 429)

theorem scan_eq_firstCode (ws : List (List Char)) :
    scanNonRetryable ws =
      match (ws.filterMap parseU16).find? (fun c => decide (400 ≤ c ∧ c < 500)) with
      | some c => decide (c ≠ 429 ∧ c ≠ 408)
      | none => false := by
  induction ws with
  | nil => rfl
  | cons w ws ih =>
    cases hw : parseU16 w with
    | none => simpa [scanNonRetryable, List.filterMap_cons, hw] using ih
    | some code =>
      by_cases hr : 400 ≤ code ∧ code < 500
      · simp [scanNonRetryable, List.filterMap_cons, hw, List.find?, hr]
      · simpa [scanNonRetryable, List.filterMap_cons, hw, List.find?, hr] using ih

/-- C5: `is_non_retryable(err)` returns true iff (a) a typed HTTP status
that is 4xx and neither 408 nor 429 is present, or (b) absent a usable
typed status, the first ASCII digit run of the rendering that parses into
`[400, 500)` is neither 408 nor 429; with no such run (and no typed 4xx
status) it returns false. -/
theorem is_non_retryable_iff_spec (e : AnyErr) :
    is_non_retryable e = true ↔ nonRetryableSpec e := by
  obtain ⟨req, msg⟩ := e
  cases req with
  | none =>
    simp only [is_non_retryable, nonRetryableSpec, typedStatus, Option.bind,
      scan_eq_firstCode, firstClientCode]
    cases hf : ((splitNonDigit msg.toList).filterMap parseU16).find?
        (fun c => decide (400 ≤ c ∧ c < 500)) with
    | none => simp
    | some c => simp [hf, and_comm]
  | some r =>
    obtain ⟨status, timeout⟩ := r
    cases status with
    | none =>
      simp only [is_non_retryable, nonRetryableSpec, typedStatus, Option.bind,
        scan_eq_firstCode, firstClientCode]
      cases hf : ((splitNonDigit msg.toList).filterMap parseU16).find?
          (fun c => decide (400 ≤ c ∧ c < 500)) with
      | none => simp
      | some c => simp [hf, and_comm]
    | some code =>
      simp only [is_non_retryable, nonRetryableSpec, typedStatus, Option.bind,
        firstClientCode]
      constructor
      · intro h
        left
        refine ⟨code, rfl, ?_⟩
        simp only [decide_eq_true_eq] at h
        omega
      · rintro (⟨c, hc, h1, h2, h3, h4⟩ | ⟨hnone, _⟩)
        · obtain rfl : code = c := by simpa using hc
          simp only [decide_eq_true_eq]
          omega
        · simp at hnone

/-! ## More field-frame lemmas (each operation touches few fields) -/

@[simp] theorem cache_put_total_calls (cfg : Config) (now : Nat) (k r : String)
    (st : EngineState) : (cache_put cfg now k r st).total_calls = st.total_calls := rfl

@[simp] theorem cache_put_retry_count (cfg : Config) (now : Nat) (k r : String)
    (st : EngineState) : (cache_put cfg now k r st).retry_count = st.retry_count := rfl

@[simp] theorem cache_put_timeout_count (cfg : Config) (now : Nat) (k r : String)
    (st : EngineState) : (cache_put cfg now k r st).timeout_count = st.timeout_count := rfl

@[simp] theorem cache_put_cache_hits (cfg : Config) (now : Nat) (k r : String)
    (st : EngineState) : (cache_put cfg now k r st).cache_hits = st.cache_hits := rfl

@[simp] theorem cache_put_cache_lookups (cfg : Config) (now : Nat) (k r : String)
    (st : EngineState) : (cache_put cfg now k r st).cache_lookups = st.cache_lookups := rfl

@[simp] theorem cache_put_coalesced_wait_count (cfg : Config) (now : Nat) (k r : String)
    (st : EngineState) : (cache_put cfg now k r st).coalesced_wait_count = st.coalesced_wait_count := rfl

@[simp] theorem cache_put_hedge_launch_count (cfg : Config) (now : Nat) (k r : String)
    (st : EngineState) : (cache_put cfg now k r st).hedge_launch_count = st.hedge_launch_count := rfl

@[simp] theorem cache_put_hedge_win_count (cfg : Config) (now : Nat) (k r : String)
    (st : EngineState) : (cache_put cfg now k r st).hedge_win_count = st.hedge_win_count := rfl

@[simp] theorem cache_put_cb_open_count (cfg : Config) (now : Nat) (k r : String)
    (st : EngineState) : (cache_put cfg now k r st).cb_open_count = st.cb_open_count := rfl

@[simp] theorem cache_put_cb_half_open_count (cfg : Config) (now : Nat) (k r : String)
    (st : EngineState) : (cache_put cfg now k r st).cb_half_open_count = st.cb_half_open_count := rfl

@[simp] theorem cache_put_cb_close_count (cfg : Config) (now : Nat) (k r : String)
    (st : EngineState) : (cache_put cfg now k r st).cb_close_count = st.cb_close_count := rfl

@[simp] theorem circuit_record_success_total_calls (n : String) (st : EngineState) :
    (circuit_record_success n st).total_calls = st.total_calls := by
  simp only [circuit_record_success]
  split <;> rfl

@[simp] theorem circuit_record_success_retry_count (n : String) (st : EngineState) :
    (circuit_record_success n st).retry_count = st.retry_count := by
  simp only [circuit_record_success]
  split <;> rfl

@[simp] theorem circuit_record_success_timeout_count (n : String) (st : EngineState) :
    (circuit_record_success n st).timeout_count = st.timeout_count := by
  simp only [circuit_record_success]
  split <;> rfl

@[simp] theorem circuit_record_success_cache_hits (n : String) (st : EngineState) :
    (circuit_record_success n st).cache_hits = st.cache_hits := by
  simp only [circuit_record_success]
  split <;> rfl

@[simp] theorem circuit_record_success_cache_lookups (n : String) (st : EngineState) :
    (circuit_record_success n st).cache_lookups = st.cache_lookups := by
  simp only [circuit_record_success]
  split <;> rfl

@[simp] theorem circuit_record_success_coalesced_wait_count (n : String) (st : EngineState) :
    (circuit_record_success n st).coalesced_wait_count = st.coalesced_wait_count := by
  simp only [circuit_record_success]
  split <;> rfl

@[simp] theorem circuit_record_success_hedge_launch_count (n : String) (st : EngineState) :
    (circuit_record_success n st).hedge_launch_count = st.hedge_launch_count := by
  simp only [circuit_record_success]
  split <;> rfl

@[simp] theorem circuit_record_success_hedge_win_count (n : String) (st : EngineState) :
    (circuit_record_success n st).hedge_win_count = st.hedge_win_count := by
  simp only [circuit_record_success]
  split <;> rfl

@[simp] theorem circuit_record_success_cb_open_count (n : String) (st : EngineState) :
    (circuit_record_success n st).cb_open_count = st.cb_open_count := by
  simp only [circuit_record_success]
  split <;> rfl

@[simp] theorem circuit_record_success_cb_half_open_count (n : String) (st : EngineState) :
    (circuit_record_success n st).cb_half_open_count = st.cb_half_open_count := by
  simp only [circuit_record_success]
  split <;> rfl

@[simp] theorem circuit_record_failure_total_calls (cfg : Config) (now : Nat)
    (n : String) (st : EngineState) :
    (circuit_record_failure cfg now n st).total_calls = st.total_calls := by
  simp only [circuit_record_failure]
  split <;> (first | rfl | (split <;> rfl))

@[simp] theorem circuit_record_failure_retry_count (cfg : Config) (now : Nat)
    (n : String) (st : EngineState) :
    (circuit_record_failure cfg now n st).retry_count = st.retry_count := by
  simp only [circuit_record_failure]
  split <;> (first | rfl | (split <;> rfl))

@[simp] theorem circuit_record_failure_timeout_count (cfg : Config) (now : Nat)
    (n : String) (st : EngineState) :
    (circuit_record_failure cfg now n st).timeout_count = st.timeout_count := by
  simp only [circuit_record_failure]
  split <;> (first | rfl | (split <;> rfl))

@[simp] theorem circuit_record_failure_cache_hits (cfg : Config) (now : Nat)
    (n : String) (st : EngineState) :
    (circuit_record_failure cfg now n st).cache_hits = st.cache_hits := by
  simp only [circuit_record_failure]
  split <;> (first | rfl | (split <;> rfl))

@[simp] theorem circuit_record_failure_cache_lookups (cfg : Config) (now : Nat)
    (n : String) (st : EngineState) :
    (circuit_record_failure cfg now n st).cache_lookups = st.cache_lookups := by
  simp only [circuit_record_failure]
  split <;> (first | rfl | (split <;> rfl))

@[simp] theorem circuit_record_failure_coalesced_wait_count (cfg : Config) (now : Nat)
    (n : String) (st : EngineState) :
    (circuit_record_failure cfg now n st).coalesced_wait_count = st.coalesced_wait_count := by
  simp only [circuit_record_failure]
  split <;> (first | rfl | (split <;> rfl))

@[simp] theorem circuit_record_failure_hedge_launch_count (cfg : Config) (now : Nat)
    (n : String) (st : EngineState) :
    (circuit_record_failure cfg now n st).hedge_launch_count = st.hedge_launch_count := by
  simp only [circuit_record_failure]
  split <;> (first | rfl | (split <;> rfl))

@[simp] theorem circuit_record_failure_hedge_win_count (cfg : Config) (now : Nat)
    (n : String) (st : EngineState) :
    (circuit_record_failure cfg now n st).hedge_win_count = st.hedge_win_count := by
  simp only [circuit_record_failure]
  split <;> (first | rfl | (split <;> rfl))

@[simp] theorem circuit_record_failure_cb_half_open_count (cfg : Config) (now : Nat)
    (n : String) (st : EngineState) :
    (circuit_record_failure cfg now n st).cb_half_open_count = st.cb_half_open_count := by
  simp only [circuit_record_failure]
  split <;> (first | rfl | (split <;> rfl))

@[simp] theorem circuit_record_failure_cb_close_count (cfg : Config) (now : Nat)
    (n : String) (st : EngineState) :
    (circuit_record_failure cfg now n st).cb_close_count = st.cb_close_count := by
  simp only [circuit_record_failure]
  split <;> (first | rfl | (split <;> rfl))

@[simp] theorem circuit_allows_call_total_calls (now : Nat) (n : String)
    (st : EngineState) : (circuit_allows_call now n st).2.total_calls = st.total_calls := by
  simp only [circuit_allows_call]
  split <;> (first | rfl | (split <;> rfl))

@[simp] theorem circuit_allows_call_retry_count (now : Nat) (n : String)
    (st : EngineState) : (circuit_allows_call now n st).2.retry_count = st.retry_count := by
  simp only [circuit_allows_call]
  split <;> (first | rfl | (split <;> rfl))

@[simp] theorem circuit_allows_call_timeout_count (now : Nat) (n : String)
    (st : EngineState) : (circuit_allows_call now n st).2.timeout_count = st.timeout_count := by
  simp only [circuit_allows_call]
  split <;> (first | rfl | (split <;> rfl))

@[simp] theorem circuit_allows_call_cache_hits (now : Nat) (n : String)
    (st : EngineState) : (circuit_allows_call now n st).2.cache_hits = st.cache_hits := by
  simp only [circuit_allows_call]
  split <;> (first | rfl | (split <;> rfl))

@[simp] theorem circuit_allows_call_cache_lookups (now : Nat) (n : String)
    (st : EngineState) : (circuit_allows_call now n st).2.cache_lookups = st.cache_lookups := by
  simp only [circuit_allows_call]
  split <;> (first | rfl | (split <;> rfl))

@[simp] theorem circuit_allows_call_coalesced_wait_count (now : Nat) (n : String)
    (st : EngineState) : (circuit_allows_call now n st).2.coalesced_wait_count = st.coalesced_wait_count := by
  simp only [circuit_allows_call]
  split <;> (first | rfl | (split <;> rfl))

@[simp] theorem circuit_allows_call_hedge_launch_count (now : Nat) (n : String)
    (st : EngineState) : (circuit_allows_call now n st).2.hedge_launch_count = st.hedge_launch_count := by
  simp only [circuit_allows_call]
  split <;> (first | rfl | (split <;> rfl))

@[simp] theorem circuit_allows_call_hedge_win_count (now : Nat) (n : String)
    (st : EngineState) : (circuit_allows_call now n st).2.hedge_win_count = st.hedge_win_count := by
  simp only [circuit_allows_call]
  split <;> (first | rfl | (split <;> rfl))

@[simp] theorem circuit_allows_call_cb_open_count (now : Nat) (n : String)
    (st : EngineState) : (circuit_allows_call now n st).2.cb_open_count = st.cb_open_count := by
  simp only [circuit_allows_call]
  split <;> (first | rfl | (split <;> rfl))

@[simp] theorem circuit_allows_call_cb_close_count (now : Nat) (n : String)
    (st : EngineState) : (circuit_allows_call now n st).2.cb_close_count = st.cb_close_count := by
  simp only [circuit_allows_call]
  split <;> (first | rfl | (split <;> rfl))

/-! ## Claim C2: capacity 0 through the environment -/

/-- C2 context: the engine configuration resulting from setting the cache
capacity environment key to the string "0" (TTL left at its default). -/
def cfgEnvZero : Config :=
  ⟨0, 50, 3, 30000, 120, cache_max_entries_from_env (some "0"), false, 120⟩

/-- C2: setting `CRABCLAW_PROVIDER_CACHE_MAX_ENTRIES=0` does not disable
the cache.  The parse filter `.filter(|v| *v > 0)` discards the parsed 0
and the capacity falls back to the default 256, so `cache_get` can still
return hits (here: immediately after a `cache_put` of "r" under "k"),
although a literal capacity of 0 would short-circuit `cache_get` to none
and the TTL key parsed from "0" does yield 0. -/
theorem cache_capacity_env_zero_does_not_disable :
    cache_max_entries_from_env (some "0") = 256 ∧
    cache_ttl_secs_from_env (some "0") = 0 ∧
    cfgEnvZero.cache_max_entries = 256 ∧
    (cache_get_c cfgEnvZero 0 "k" (cache_put_c cfgEnvZero 0 "k" "r" [])).1 = some "r" ∧
    (cache_get_c { cfgEnvZero with cache_max_entries := 0 } 0 "k"
      (cache_put_c cfgEnvZero 0 "k" "r" [])).1 = none := by
  decide

/-! ## Claim C9: the empty provider list -/

/-- C9: on a cache miss with an empty provider list, both chat operations
return the aggregated error with an empty attempt list (no panic), and
`total_calls`, `retry_count` and `timeout_count` are unchanged. -/
theorem empty_provider_list_error (cfg : Config) (w : World) (now : Nat)
    (key : String) (st : EngineState)
    (hmiss : (cache_get_c cfg now key st.cache).1 = none) :
    (chat_request cfg w now [] key st).result =
      .error "All providers failed. Attempts:\n" ∧
    (chat_request cfg w now [] key st).log = [] ∧
    (chat_request cfg w now [] key st).state.total_calls = st.total_calls ∧
    (chat_request cfg w now [] key st).state.retry_count = st.retry_count ∧
    (chat_request cfg w now [] key st).state.timeout_count = st.timeout_count := by
  rcases hp : cache_get_c cfg now key st.cache with ⟨hit, c2⟩
  rw [hp] at hmiss
  simp only at hmiss
  subst hmiss
  simp only [chat_request, providerLoop, hp]
  simp [String.intercalate]

/-- Witness for C9 at a concrete input. -/
theorem empty_provider_list_error_witness :
    (cache_get_c ⟨0, 50, 3, 30000, 120, 256, false, 120⟩ 0 "k" initState.cache).1 = none ∧
    (chat_request ⟨0, 50, 3, 30000, 120, 256, false, 120⟩
        ⟨fun _ _ => .error ⟨none, "x"⟩, fun _ => false⟩ 0 [] "k" initState).result =
      .error "All providers failed. Attempts:\n" := by
  refine ⟨by decide, ?_⟩
  exact (empty_provider_list_error ⟨0, 50, 3, 30000, 120, 256, false, 120⟩
    ⟨fun _ _ => .error ⟨none, "x"⟩, fun _ => false⟩ 0 "k" initState (by decide)).1

/-! ## Claim C1: breaker attribution under hedging -/

/-- Hedge-enabled configuration used by the hedging scenarios
(`max_retries = 0`, threshold 3, default cooldown/cache values). -/
def cfgH : Config := ⟨0, 50, 3, 30000, 120, 256, true, 120⟩

/-- World in which the hedge side wins the race and its invocation
(provider index 1) succeeds with `r`. -/
def hedgeWorldOk (r : String) : World :=
  ⟨fun i _ => if i = 1 then .ok r else .error ⟨none, "primary lost"⟩,
   fun _ => true⟩

/-- World in which the hedge side wins with an error on its first
invocation of provider 1, whose own later (direct) invocation succeeds. -/
def hedgeWorldErr : World :=
  ⟨fun i k =>
     if i = 1 ∧ k = 0 then .error ⟨none, "hedge boom"⟩
     else if i = 1 ∧ k = 1 then .ok "v"
     else .error ⟨none, "unused"⟩,
   fun _ => true⟩

/-- Engine state with two closed breakers carrying `f0` and `f1`
accumulated consecutive failures. -/
def twoProviderSt (f0 f1 : Nat) : EngineState :=
  { initState with circuits := [("p0", ⟨f0, none⟩), ("p1", ⟨f1, none⟩)] }

/-- Concrete hedge-win run used by the C1 counterexample. -/
def c1out : RunOut :=
  chat_request cfgH (hedgeWorldOk "r") 0 ["p0", "p1"] "k" (twoProviderSt 1 2)

/-- C1 counterexample: hedging is enabled, the hedge provider "p1" wins
the race and produces the successful result (`hedge_win_count = 1`,
log `[1]`), yet `record_success` is applied to the primary "p0" — whose
failure count is reset to 0 and whose close counter fires — while the
winner "p1" keeps its 2 consecutive failures.  The claim says the success
would be recorded on the provider that produced the result ("p1"). -/
theorem hedge_win_attribution_cex :
    c1out.result = .ok "r" ∧
    c1out.log = [1] ∧
    c1out.state.hedge_win_count = 1 ∧
    getCircuit c1out.state.circuits "p0" = ⟨0, none⟩ ∧
    getCircuit c1out.state.circuits "p1" = ⟨2, none⟩ ∧
    c1out.state.cb_close_count = 1 := by
  decide

/-- C1 amended: on a hedged call, breaker bookkeeping is attributed to the
primary provider (the one at the current loop index) regardless of which
side produced the outcome.  When the hedge wins with a success, the
primary "p0" is success-reset and the hedge "p1" keeps its failure count;
when the hedge wins with an error, the failure is recorded against "p0"
even though "p0" was never invoked (the log shows only provider 1). -/
theorem hedge_attribution_to_primary (f0 f1 now : Nat) (r : String) :
    ((chat_request cfgH (hedgeWorldOk r) now ["p0", "p1"] "k"
        (twoProviderSt f0 f1)).result = .ok r ∧
     (chat_request cfgH (hedgeWorldOk r) now ["p0", "p1"] "k"
        (twoProviderSt f0 f1)).log = [1] ∧
     (chat_request cfgH (hedgeWorldOk r) now ["p0", "p1"] "k"
        (twoProviderSt f0 f1)).state.hedge_win_count = 1 ∧
     getCircuit (chat_request cfgH (hedgeWorldOk r) now ["p0", "p1"] "k"
        (twoProviderSt f0 f1)).state.circuits "p0" = ⟨0, none⟩ ∧
     getCircuit (chat_request cfgH (hedgeWorldOk r) now ["p0", "p1"] "k"
        (twoProviderSt f0 f1)).state.circuits "p1" = ⟨f1, none⟩) ∧
    ((chat_request cfgH hedgeWorldErr 0 ["p0", "p1"] "k"
        (twoProviderSt 0 0)).result = .ok "v" ∧
     (chat_request cfgH hedgeWorldErr 0 ["p0", "p1"] "k"
        (twoProviderSt 0 0)).log = [1, 1] ∧
     getCircuit (chat_request cfgH hedgeWorldErr 0 ["p0", "p1"] "k"
        (twoProviderSt 0 0)).state.circuits "p0" = ⟨1, none⟩) := by
  constructor
  · simp [chat_request, providerLoop, runAttempts, bumpTotal, hedgeGate,
      pickOutcome, hedgeWinBump, circuit_allows_call, getCircuit, lookupA,
      setA, cache_get_c, sweep, cfgH, hedgeWorldOk, twoProviderSt, initState,
      inc64, CircuitState.healthy]
  · decide

/-! ## Claim C10: the hedge eligibility check is not a pure read -/

/-- World in which the primary provider (index 0) answers first with `r`;
the hedge side never resolves first. -/
def wPrimaryOk (r : String) : World :=
  ⟨fun i _ => if i = 0 then .ok r else .error ⟨none, "unused"⟩, fun _ => false⟩

/-- Engine state in which only the next provider "p1" has breaker state:
`f1` failures and an open window ending at `u`. -/
def stOpenNext (f1 u : Nat) : EngineState :=
  { initState with circuits := [("p1", ⟨f1, some u⟩)] }

/-- C10: with hedging enabled, evaluating hedge eligibility on attempt 0
itself calls `circuit_allows_call` on provider `i+1`; if that provider's
cooldown has elapsed, its `open_until` is cleared, its failures reset and
the half-open counter bumped — here even though the hedge launch loses the
race (the log shows only provider 0 was invoked) and its invocation is
cancelled before happening. -/
theorem hedge_gate_mutates_next_breaker (f1 u now : Nat) (r : String)
    (h : u ≤ now) :
    (chat_request cfgH (wPrimaryOk r) now ["p0", "p1"] "k"
      (stOpenNext f1 u)).result = .ok r ∧
    (chat_request cfgH (wPrimaryOk r) now ["p0", "p1"] "k"
      (stOpenNext f1 u)).log = [0] ∧
    getCircuit (chat_request cfgH (wPrimaryOk r) now ["p0", "p1"] "k"
      (stOpenNext f1 u)).state.circuits "p1" = ⟨0, none⟩ ∧
    (chat_request cfgH (wPrimaryOk r) now ["p0", "p1"] "k"
      (stOpenNext f1 u)).state.cb_half_open_count = 1 ∧
    (chat_request cfgH (wPrimaryOk r) now ["p0", "p1"] "k"
      (stOpenNext f1 u)).state.hedge_launch_count = 1 ∧
    (chat_request cfgH (wPrimaryOk r) now ["p0", "p1"] "k"
      (stOpenNext f1 u)).state.hedge_win_count = 0 := by
  simp [chat_request, providerLoop, runAttempts, bumpTotal, hedgeGate,
    pickOutcome, hedgeWinBump, circuit_allows_call, getCircuit, lookupA,
    setA, cache_get_c, sweep, cfgH, wPrimaryOk, stOpenNext, initState,
    inc64, CircuitState.healthy, Nat.not_lt.mpr h]

/-- Witness for C10 at a concrete input. -/
theorem hedge_gate_mutates_next_breaker_witness :
    5 ≤ 7 ∧
    (chat_request cfgH (wPrimaryOk "x") 7 ["p0", "p1"] "k"
      (stOpenNext 2 5)).result = .ok "x" := by
  exact ⟨by decide, (hedge_gate_mutates_next_breaker 2 5 7 "x" (by decide)).1⟩

/-! ## Claim C4: half-open transition and its close counter -/

/-- Engine state after admitting "p" through an elapsed open window
(breaker was at 3 failures with `open_until = 1000`, admission at 2000). -/
def c4mid : EngineState :=
  (circuit_allows_call 2000 "p"
    { initState with circuits := [("p", ⟨3, some 1000⟩)] }).2

/-- C4 counterexample: the elapsed-cooldown `allows_call` does transition
to half-open (counter 1, state reset), but the subsequent
`record_success` does NOT increment `circuit_close_count` (it stays 0):
the half-open admission already cleared `open_until` and the failure
count, so `should_count_close` is false.  The claim asserts the close
counter is incremented. -/
theorem half_open_record_success_cex :
    (circuit_allows_call 2000 "p"
      { initState with circuits := [("p", ⟨3, some 1000⟩)] }).1 = true ∧
    c4mid.cb_half_open_count = 1 ∧
    getCircuit c4mid.circuits "p" = ⟨0, none⟩ ∧
    c4mid.cb_close_count = 0 ∧
    (circuit_record_success "p" c4mid).cb_close_count = 0 := by
  decide

/-- Engine state after a half-open admission of `name`: breaker reset,
half-open counter bumped, everything else untouched. -/
def halfOpenReset (name : String) (st : EngineState) : EngineState :=
  { st with circuits := setA st.circuits name ⟨0, none⟩, cb_half_open_count := inc64 st.cb_half_open_count }

/-- C4 amended: once the cooldown has elapsed, the next `allows_call`
clears `open_until`, resets the failures, bumps the half-open counter and
admits the call; a subsequent `record_success` keeps both fields reset but
leaves `circuit_close_count` unchanged (in general `record_success` bumps
the close counter exactly when `open_until` is set or failures are
positive, and the half-open admission has just cleared both); a subsequent
failure re-opens the breaker when the threshold is 1. -/
theorem half_open_transition_amended (cfg : Config) (name : String)
    (st : EngineState) (now now2 f u : Nat)
    (h : getCircuit st.circuits name = ⟨f, some u⟩) (he : u ≤ now) :
    (circuit_allows_call now name st).1 = true ∧
    (circuit_allows_call now name st).2 = halfOpenReset name st ∧
    (circuit_record_success name (circuit_allows_call now name st).2).cb_close_count =
      (circuit_allows_call now name st).2.cb_close_count ∧
    getCircuit (circuit_record_success name
      (circuit_allows_call now name st).2).circuits name = ⟨0, none⟩ ∧
    (∀ st₂ : EngineState,
      (circuit_record_success name st₂).cb_close_count =
        (if ((getCircuit st₂.circuits name).open_until.isSome
              || decide ((getCircuit st₂.circuits name).consecutive_failures > 0)) = true
         then inc64 st₂.cb_close_count else st₂.cb_close_count)) ∧
    (cfg.circuit_breaker_failure_threshold = 1 →
      getCircuit (circuit_record_failure cfg now2 name
        (circuit_allows_call now name st).2).circuits name =
          ⟨1, some (now2 + cfg.circuit_breaker_cooldown_ms)⟩) := by
  have hclose : ∀ st₂ : EngineState,
      (circuit_record_success name st₂).cb_close_count =
        (if ((getCircuit st₂.circuits name).open_until.isSome
              || decide ((getCircuit st₂.circuits name).consecutive_failures > 0)) = true
         then inc64 st₂.cb_close_count else st₂.cb_close_count) := by
    intro st₂
    simp only [circuit_record_success]
    split <;> simp_all
  have hac : circuit_allows_call now name st = (true, halfOpenReset name st) := by
    simp [circuit_allows_call, halfOpenReset, h, Nat.not_lt.mpr he]
  refine ⟨by rw [hac], by rw [hac], ?_, ?_, hclose, ?_⟩
  · rw [hac, hclose]
    simp [halfOpenReset, getCircuit_setA_self]
  · rw [hac]
    simp [halfOpenReset, getCircuit_setA_self]
  · intro hT
    rw [hac]
    simp [halfOpenReset, circuit_record_failure, getCircuit_setA_self,
      satAdd32, hT, setA_setA]

/-- Witness for C4's amended theorem at a concrete input. -/
theorem half_open_transition_amended_witness :
    (getCircuit ({ initState with circuits := [("p", ⟨2, some 5⟩)] } :
        EngineState).circuits "p" = ⟨2, some 5⟩ ∧ 5 ≤ 7) ∧
    (circuit_allows_call 7 "p"
      { initState with circuits := [("p", ⟨2, some 5⟩)] }).1 = true := by
  exact ⟨⟨by decide, by decide⟩,
    (half_open_transition_amended ⟨0, 50, 1, 30000, 120, 256, false, 120⟩
      "p" { initState with circuits := [("p", ⟨2, some 5⟩)] } 7 9 2 5
      (by decide) (by decide)).1⟩

/-! ## Claim C3: the circuit opens at the threshold -/

/-- `n` consecutive `record_failure` calls on `name`, all at instant
`now`, with no intervening `record_success`. -/
def iterFail (cfg : Config) (now : Nat) (name : String) :
    Nat → EngineState → EngineState
  | 0, st => st
  | n + 1, st => iterFail cfg now name n (circuit_record_failure cfg now name st)

theorem record_failure_eq_below (cfg : Config) (now : Nat) (name : String)
    (st : EngineState) (j : Nat)
    (h : getCircuit st.circuits name = ⟨j, none⟩)
    (hlt : j + 1 < cfg.circuit_breaker_failure_threshold)
    (h32 : cfg.circuit_breaker_failure_threshold ≤ 2 ^ 32 - 1) :
    circuit_record_failure cfg now name st =
      { st with circuits := setA st.circuits name ⟨j + 1, none⟩ } := by
  have hs : satAdd32 j = j + 1 := by
    simp only [satAdd32]
    omega
  simp [circuit_record_failure, h, hs, Nat.not_le.mpr hlt]

theorem record_failure_eq_opens (cfg : Config) (now : Nat) (name : String)
    (st : EngineState) (j : Nat)
    (h : getCircuit st.circuits name = ⟨j, none⟩)
    (hge : cfg.circuit_breaker_failure_threshold ≤ j + 1)
    (h32 : j + 1 ≤ 2 ^ 32 - 1) :
    circuit_record_failure cfg now name st =
      { st with
        circuits := setA st.circuits name
          ⟨j + 1, some (now + cfg.circuit_breaker_cooldown_ms)⟩,
        cb_open_count := inc64 st.cb_open_count } := by
  have hs : satAdd32 j = j + 1 := by
    simp only [satAdd32]
    omega
  simp [circuit_record_failure, h, hs, hge]

theorem iterFail_opens (cfg : Config) (now : Nat) (name : String)
    (h32 : cfg.circuit_breaker_failure_threshold ≤ 2 ^ 32 - 1) :
    ∀ (n j : Nat) (st : EngineState),
      getCircuit st.circuits name = ⟨j, none⟩ →
      j + (n + 1) = cfg.circuit_breaker_failure_threshold →
      iterFail cfg now name (n + 1) st =
        { st with
          circuits := setA st.circuits name
            ⟨cfg.circuit_breaker_failure_threshold,
              some (now + cfg.circuit_breaker_cooldown_ms)⟩,
          cb_open_count := inc64 st.cb_open_count } := by
  intro n
  induction n with
  | zero =>
    intro j st h hsum
    have hj : j + 1 = cfg.circuit_breaker_failure_threshold := by omega
    simp only [iterFail]
    rw [record_failure_eq_opens cfg now name st j h (by omega) (by omega), hj]
  | succ m ih =>
    intro j st h hsum
    have hlt : j + 1 < cfg.circuit_breaker_failure_threshold := by omega
    have h' : getCircuit (setA st.circuits name ⟨j + 1, none⟩) name = ⟨j + 1, none⟩ :=
      getCircuit_setA_self _ _ _
    have hIH := ih (j + 1)
      { st with circuits := setA st.circuits name ⟨j + 1, none⟩ } h' (by omega)
    simp only [iterFail] at hIH ⊢
    rw [record_failure_eq_below cfg now name st j h hlt h32, hIH]
    simp [setA_setA]

theorem intercalate_singleton (s : String) : String.intercalate "\n" [s] = s := rfl

/-- C3: with threshold `T ≥ 1`, after `T` consecutive `record_failure`
calls on provider `name` (starting from a clean breaker, no intervening
success), `open_until` is set to `now + cooldown` and the open counter
fires exactly once; the next request that reaches the pipeline before the
cooldown elapses skips `name` with a `"{name}: circuit open"` entry and
never invokes it; and `record_failure` never bumps `circuit_open_count`
when the breaker is already open and unelapsed. -/
theorem circuit_opens_at_threshold (cfg : Config) (w : World)
    (name key : String) (now now2 : Nat) (st : EngineState)
    (hT1 : 1 ≤ cfg.circuit_breaker_failure_threshold)
    (hT32 : cfg.circuit_breaker_failure_threshold ≤ 2 ^ 32 - 1)
    (hclean : getCircuit st.circuits name = ⟨0, none⟩)
    (hcache : st.cache = [])
    (hnow2 : now2 < now + cfg.circuit_breaker_cooldown_ms) :
    getCircuit (iterFail cfg now name cfg.circuit_breaker_failure_threshold
        st).circuits name =
      ⟨cfg.circuit_breaker_failure_threshold,
        some (now + cfg.circuit_breaker_cooldown_ms)⟩ ∧
    (iterFail cfg now name cfg.circuit_breaker_failure_threshold
        st).cb_open_count = inc64 st.cb_open_count ∧
    (chat_request cfg w now2 [name] key
      (iterFail cfg now name cfg.circuit_breaker_failure_threshold st)).result =
      .error ("All providers failed. Attempts:\n" ++ (name ++ ": circuit open")) ∧
    (chat_request cfg w now2 [name] key
      (iterFail cfg now name cfg.circuit_breaker_failure_threshold st)).log = [] ∧
    (chat_request cfg w now2 [name] key
      (iterFail cfg now name cfg.circuit_breaker_failure_threshold st)).events =
      [FailEvent.skip name] ∧
    (∀ (st₂ : EngineState) (f u : Nat),
      getCircuit st₂.circuits name = ⟨f, some u⟩ → now2 < u →
      (circuit_record_failure cfg now2 name st₂).cb_open_count = st₂.cb_open_count) := by
  obtain ⟨n, hn⟩ : ∃ n, cfg.circuit_breaker_failure_threshold = n + 1 :=
    ⟨cfg.circuit_breaker_failure_threshold - 1, by omega⟩
  have hstf := iterFail_opens cfg now name hT32 n 0 st hclean (by omega)
  rw [← hn] at hstf
  have hopen : ∀ (st₂ : EngineState) (f u : Nat),
      getCircuit st₂.circuits name = ⟨f, some u⟩ → now2 < u →
      (circuit_record_failure cfg now2 name st₂).cb_open_count = st₂.cb_open_count := by
    intro st₂ f u h2 hu
    simp only [circuit_record_failure, h2]
    split
    · simp [Nat.not_le.mpr hu]
    · rfl
  refine ⟨?_, ?_, ?_, ?_, ?_, hopen⟩
  · rw [hstf]
    simp [getCircuit_setA_self]
  · rw [hstf]
  · rw [hstf]
    simp [chat_request, cache_get_c, sweep, hcache, lookupA, providerLoop,
      circuit_allows_call, getCircuit_setA_self, hnow2, intercalate_singleton]
  · rw [hstf]
    simp [chat_request, cache_get_c, sweep, hcache, lookupA, providerLoop,
      circuit_allows_call, getCircuit_setA_self, hnow2]
  · rw [hstf]
    simp [chat_request, cache_get_c, sweep, hcache, lookupA, providerLoop,
      circuit_allows_call, getCircuit_setA_self, hnow2]

/-- Witness for C3 at a concrete input (default threshold 3). -/
theorem circuit_opens_at_threshold_witness :
    (1 ≤ (3 : Nat) ∧ (3 : Nat) ≤ 2 ^ 32 - 1 ∧
      getCircuit initState.circuits "p" = ⟨0, none⟩ ∧
      initState.cache = [] ∧ 100 < 50 + 30000) ∧
    getCircuit (iterFail ⟨0, 50, 3, 30000, 120, 256, false, 120⟩ 50 "p" 3
        initState).circuits "p" = ⟨3, some 30050⟩ := by
  exact ⟨⟨by decide, by decide, by decide, by decide, by decide⟩,
    (circuit_opens_at_threshold ⟨0, 50, 3, 30000, 120, 256, false, 120⟩
      ⟨fun _ _ => .error ⟨none, "x"⟩, fun _ => false⟩ "p" "k" 50 100 initState
      (by decide) (by decide) (by decide) (by decide) (by decide)).1⟩

/-! ## Claim C6: the aggregated error message -/

/-- Modelled from the spec: the failure-list line contributed by each
event — a real attempt yields
`"{name} attempt {a+1}/{max_retries+1}: {err}"`, a circuit-open skip
yields `"{name}: circuit open"`. -/
def specFailureLine (cfg : Config) : FailEvent → String
  | .attemptFail name a e =>
    name ++ " attempt " ++ toString (a + 1) ++ "/" ++
      toString (cfg.max_retries + 1) ++ ": " ++ e.msg
  | .skip name => name ++ ": circuit open"

@[simp] theorem bumpTotal_failures (ls : LoopSt) :
    (bumpTotal ls).failures = ls.failures := rfl

@[simp] theorem bumpTotal_events (ls : LoopSt) :
    (bumpTotal ls).events = ls.events := rfl

@[simp] theorem hedgeGate_failures (cfg : Config) (now : Nat)
    (names : List String) (idx attempt : Nat) (ls : LoopSt) :
    (hedgeGate cfg now names idx attempt ls).2.failures = ls.failures := by
  simp only [hedgeGate]
  split <;> rfl

@[simp] theorem hedgeGate_events (cfg : Config) (now : Nat)
    (names : List String) (idx attempt : Nat) (ls : LoopSt) :
    (hedgeGate cfg now names idx attempt ls).2.events = ls.events := by
  simp only [hedgeGate]
  split <;> rfl

@[simp] theorem pickOutcome_failures (w : World) (names : List String)
    (idx : Nat) (name : String) (useHedge : Bool) (ls : LoopSt) :
    (pickOutcome w names idx name useHedge ls).2.2.failures = ls.failures := by
  simp only [pickOutcome]
  split <;> (first | rfl | (split <;> rfl))

@[simp] theorem pickOutcome_events (w : World) (names : List String)
    (idx : Nat) (name : String) (useHedge : Bool) (ls : LoopSt) :
    (pickOutcome w names idx name useHedge ls).2.2.events = ls.events := by
  simp only [pickOutcome]
  split <;> (first | rfl | (split <;> rfl))

@[simp] theorem hedgeWinBump_failures (names : List String) (idx : Nat)
    (useHedge : Bool) (winnerName : String) (ls : LoopSt) :
    (hedgeWinBump names idx useHedge winnerName ls).failures = ls.failures := by
  simp only [hedgeWinBump]
  split <;> rfl

@[simp] theorem hedgeWinBump_events (names : List String) (idx : Nat)
    (useHedge : Bool) (winnerName : String) (ls : LoopSt) :
    (hedgeWinBump names idx useHedge winnerName ls).events = ls.events := by
  simp only [hedgeWinBump]
  split <;> rfl

theorem runAttempts_render (cfg : Config) (w : World) (now : Nat)
    (names : List String) (idx : Nat) (name key : String) :
    ∀ (fuel attempt : Nat) (ls : LoopSt) (res : Option String) (ls' : LoopSt),
      runAttempts cfg w now names idx name key attempt fuel ls = (res, ls') →
      ls.failures = ls.events.map (specFailureLine cfg) →
      ls'.failures = ls'.events.map (specFailureLine cfg) := by
  intro fuel
  induction fuel with
  | zero =>
    intro attempt ls res ls' heq h
    simp only [runAttempts] at heq
    obtain ⟨-, rfl⟩ := Prod.mk.injEq .. ▸ heq
    exact h
  | succ f ih =>
    intro attempt ls res ls' heq h
    simp only [runAttempts] at heq
    repeat' split at heq
    all_goals
      first
        | exact ih _ _ _ _ heq (by
            simp [h, attemptLine, specFailureLine])
        | (obtain ⟨-, rfl⟩ := Prod.mk.injEq .. ▸ heq
           simp [h, attemptLine, specFailureLine])

theorem providerLoop_render (cfg : Config) (w : World) (now : Nat)
    (names : List String) (key : String) :
    ∀ (rest : List String) (idx : Nat) (ls : LoopSt) (res : Option String)
      (ls' : LoopSt),
      providerLoop cfg w now names key idx rest ls = (res, ls') →
      ls.failures = ls.events.map (specFailureLine cfg) →
      ls'.failures = ls'.events.map (specFailureLine cfg) := by
  intro rest
  induction rest with
  | nil =>
    intro idx ls res ls' heq h
    simp only [providerLoop] at heq
    obtain ⟨-, rfl⟩ := Prod.mk.injEq .. ▸ heq
    exact h
  | cons nm rest ih =>
    intro idx ls res ls' heq h
    simp only [providerLoop] at heq
    split at heq
    · split at heq <;> rename_i hr
      · obtain ⟨-, rfl⟩ := Prod.mk.injEq .. ▸ heq
        exact runAttempts_render cfg w now names idx nm key _ _ _ _ _ hr
          (by simp [h])
      · exact ih _ _ _ _ heq
          (runAttempts_render cfg w now names idx nm key _ _ _ _ _ hr
            (by simp [h]))
    · exact ih _ _ _ _ heq (by simp [h, specFailureLine])

/-- C6: whenever every provider has been exhausted, the returned error
message is exactly `"All providers failed. Attempts:\n"` followed by the
newline-joined failure entries, in the order attempted, where each real
attempt renders as `"{name} attempt {a+1}/{max_retries+1}: {err}"` and
each circuit-open skip renders as `"{name}: circuit open"`. -/
theorem aggregated_error_message (cfg : Config) (w : World) (now : Nat)
    (names : List String) (key : String) (st : EngineState) (msg : String)
    (herr : (chat_request cfg w now names key st).result = .error msg) :
    msg = "All providers failed. Attempts:\n" ++
      String.intercalate "\n"
        ((chat_request cfg w now names key st).events.map
          (specFailureLine cfg)) := by
  rcases hp : cache_get_c cfg now key st.cache with ⟨hit, c2⟩
  cases hit with
  | some r =>
    simp only [chat_request, hp] at herr
    exact absurd herr (by simp)
  | none =>
    simp only [chat_request, hp] at herr ⊢
    split at herr <;> rename_i hq
    · exact absurd herr (by simp)
    · rename_i ro lsq
      simp only [hq]
      have hren := providerLoop_render cfg w now names key names 0 _ _ _ hq
        (by simp)
      simp only [Except.error.injEq] at herr
      rw [← herr, hren]

/-- Witness for C6: two providers, both always failing, `max_retries = 0`. -/
theorem aggregated_error_message_witness :
    (chat_request ⟨0, 50, 3, 30000, 120, 256, false, 120⟩
        ⟨fun _ _ => .error ⟨none, "boom"⟩, fun _ => false⟩ 0 ["p1", "p2"] "k"
        initState).result =
      .error "All providers failed. Attempts:\np1 attempt 1/1: boom\np2 attempt 1/1: boom" ∧
    "All providers failed. Attempts:\np1 attempt 1/1: boom\np2 attempt 1/1: boom" =
      "All providers failed. Attempts:\n" ++
        String.intercalate "\n"
          ((chat_request ⟨0, 50, 3, 30000, 120, 256, false, 120⟩
              ⟨fun _ _ => .error ⟨none, "boom"⟩, fun _ => false⟩ 0 ["p1", "p2"] "k"
              initState).events.map
            (specFailureLine ⟨0, 50, 3, 30000, 120, 256, false, 120⟩)) := by
  refine ⟨by decide, ?_⟩
  exact aggregated_error_message ⟨0, 50, 3, 30000, 120, 256, false, 120⟩
    ⟨fun _ _ => .error ⟨none, "boom"⟩, fun _ => false⟩ 0 ["p1", "p2"] "k"
    initState _ (by decide)

/-! ## Claim C8: cache bound, oldest-first eviction, TTL sweep -/

theorem minTs_le (c : List (String × CacheEntry)) :
    ∀ kv ∈ c, minTs c ≤ kv.2.inserted_at := by
  induction c with
  | nil => intro kv h; cases h
  | cons a t ih =>
    intro kv hkv
    cases t with
    | nil =>
      have : kv = a := List.mem_singleton.mp hkv
      subst this
      simp [minTs]
    | cons b u =>
      rcases List.mem_cons.mp hkv with h | h
      · subst h
        simp [minTs]
      · calc minTs (a :: b :: u) ≤ minTs (b :: u) := by simp [minTs]
          _ ≤ kv.2.inserted_at := ih kv h

theorem minTs_mem (c : List (String × CacheEntry)) (h : c ≠ []) :
    ∃ kv ∈ c, kv.2.inserted_at = minTs c := by
  induction c with
  | nil => exact absurd rfl h
  | cons a t ih =>
    cases t with
    | nil => exact ⟨a, List.mem_cons_self a _, by simp [minTs]⟩
    | cons b u =>
      rcases ih (by simp) with ⟨kv, hmem, hts⟩
      rcases Nat.le_total a.2.inserted_at (minTs (b :: u)) with hle | hle
      · exact ⟨a, List.mem_cons_self a _, by simp [minTs, Nat.min_eq_left hle]⟩
      · exact ⟨kv, List.mem_cons_of_mem a hmem, by
          simp [minTs, Nat.min_eq_right hle, hts]⟩

theorem removeFirstWithTs_length (m : Nat) (c : List (String × CacheEntry))
    (h : ∃ kv ∈ c, kv.2.inserted_at = m) :
    (removeFirstWithTs m c).length + 1 = c.length := by
  induction c with
  | nil => rcases h with ⟨kv, hm, -⟩; cases hm
  | cons a t ih =>
    by_cases ha : a.2.inserted_at = m
    · simp [removeFirstWithTs, ha]
    · rcases h with ⟨kv, hm, hts⟩
      rcases List.mem_cons.mp hm with rfl | hmem
      · exact absurd hts ha
      · simp only [removeFirstWithTs, if_neg ha, List.length_cons]
        rw [← ih ⟨kv, hmem, hts⟩]

theorem removeFirstWithTs_sublist (m : Nat) (c : List (String × CacheEntry)) :
    List.Sublist (removeFirstWithTs m c) c := by
  induction c with
  | nil => simp [removeFirstWithTs]
  | cons a t ih =>
    by_cases ha : a.2.inserted_at = m
    · simp only [removeFirstWithTs, if_pos ha]
      exact List.Sublist.cons a (List.Sublist.refl t)
    · simp only [removeFirstWithTs, if_neg ha]
      exact List.Sublist.cons₂ a ih

theorem removeFirstWithTs_removed (m : Nat) (c : List (String × CacheEntry)) :
    ∀ y ∈ c, y ∉ removeFirstWithTs m c → y.2.inserted_at = m := by
  induction c with
  | nil => intro y hy; cases hy
  | cons a t ih =>
    intro y hy hnot
    by_cases ha : a.2.inserted_at = m
    · simp only [removeFirstWithTs, if_pos ha] at hnot
      rcases List.mem_cons.mp hy with rfl | hmem
      · exact ha
      · exact absurd hmem hnot
    · simp only [removeFirstWithTs, if_neg ha, List.mem_cons] at hnot
      push_neg at hnot
      rcases List.mem_cons.mp hy with rfl | hmem
      · exact absurd rfl hnot.1
      · exact ih y hmem hnot.2

theorem evictFuel_length (maxE : Nat) :
    ∀ (fuel : Nat) (c : List (String × CacheEntry)), c.length ≤ fuel →
      (evictFuel maxE fuel c).length ≤ maxE := by
  intro fuel
  induction fuel with
  | zero =>
    intro c hc
    have : c = [] := List.eq_nil_of_length_eq_zero (Nat.le_zero.mp hc)
    simp [this, evictFuel]
  | succ f ih =>
    intro c hc
    simp only [evictFuel]
    split
    · assumption
    · rename_i hgt
      apply ih
      have hne : c ≠ [] := by
        intro h
        simp [h] at hgt
      have := removeFirstWithTs_length (minTs c) c (minTs_mem c hne)
      omega

theorem evictFuel_sublist (maxE : Nat) :
    ∀ (fuel : Nat) (c : List (String × CacheEntry)),
      List.Sublist (evictFuel maxE fuel c) c := by
  intro fuel
  induction fuel with
  | zero => intro c; simp [evictFuel]
  | succ f ih =>
    intro c
    simp only [evictFuel]
    split
    · exact List.Sublist.refl c
    · exact (ih _).trans (removeFirstWithTs_sublist _ c)

theorem evictFuel_oldest (maxE : Nat) :
    ∀ (fuel : Nat) (c : List (String × CacheEntry)),
      ∀ y ∈ c, y ∉ evictFuel maxE fuel c →
        ∀ x ∈ evictFuel maxE fuel c, y.2.inserted_at ≤ x.2.inserted_at := by
  intro fuel
  induction fuel with
  | zero =>
    intro c y hy hnot x hx
    simp only [evictFuel] at hnot hx
    exact absurd hy hnot
  | succ f ih =>
    intro c y hy hnot x hx
    simp only [evictFuel] at hnot hx
    split at hnot
    · split at hx
      · exact absurd hy hnot
      · omega
    · split at hx
      · omega
      · by_cases hy' : y ∈ removeFirstWithTs (minTs c) c
        · exact ih _ y hy' hnot x hx
        · have hts : y.2.inserted_at = minTs c :=
            removeFirstWithTs_removed (minTs c) c y hy hy'
          have hxc : x ∈ c :=
            (removeFirstWithTs_sublist (minTs c) c).subset
              ((evictFuel_sublist maxE f _).subset hx)
          rw [hts]
          exact minTs_le c x hxc

theorem lookupA_mem {α : Type} (l : List (String × α)) (key : String) (v : α)
    (h : lookupA l key = some v) : (key, v) ∈ l := by
  induction l with
  | nil => cases h
  | cons a t ih =>
    obtain ⟨k, w⟩ := a
    by_cases hk : k = key
    · subst hk
      have hv : w = v := by simpa [lookupA] using h
      subst hv
      exact List.mem_cons_self _ _
    · simp only [lookupA, if_neg hk] at h
      exact List.mem_cons_of_mem _ (ih h)

/-- C8: after every `cache_put` the table holds at most `max_entries`
entries, eviction removes exactly entries that are oldest by
`inserted_at` (every evicted entry is no newer than every survivor, and
survivors form a sublist of the post-insert table); `cache_get` first
drops every entry whose age strictly exceeds the TTL and keeps all
others, so any returned response comes from an entry no older than the
TTL.  With either parameter 0, `cache_put` is a no-op. -/
theorem cache_put_bound_oldest_ttl (cfg : Config) (now : Nat)
    (key resp : String) (c : List (String × CacheEntry))
    (hT : 0 < cfg.cache_ttl_secs) (hM : 0 < cfg.cache_max_entries) :
    (cache_put_c cfg now key resp c).length ≤ cfg.cache_max_entries ∧
    List.Sublist (cache_put_c cfg now key resp c) (setA c key ⟨resp, now⟩) ∧
    (∀ y ∈ setA c key ⟨resp, now⟩, y ∉ cache_put_c cfg now key resp c →
      ∀ x ∈ cache_put_c cfg now key resp c, y.2.inserted_at ≤ x.2.inserted_at) ∧
    (∀ cfg' : Config, cfg'.cache_ttl_secs = 0 ∨ cfg'.cache_max_entries = 0 →
      cache_put_c cfg' now key resp c = c) ∧
    (∀ kv ∈ (cache_get_c cfg now key c).2,
      now - kv.2.inserted_at ≤ cfg.cache_ttl_secs * 1000) ∧
    (∀ kv ∈ c, now - kv.2.inserted_at ≤ cfg.cache_ttl_secs * 1000 →
      kv ∈ (cache_get_c cfg now key c).2) ∧
    (∀ r, (cache_get_c cfg now key c).1 = some r →
      ∃ e, lookupA (cache_get_c cfg now key c).2 key = some e ∧
        e.response = r ∧ now - e.inserted_at ≤ cfg.cache_ttl_secs * 1000) := by
  have hcond : ¬(cfg.cache_ttl_secs = 0 ∨ cfg.cache_max_entries = 0) := by omega
  refine ⟨?_, ?_, ?_, ?_, ?_, ?_, ?_⟩
  · simp only [cache_put_c, if_neg hcond]
    split
    · exact evictFuel_length cfg.cache_max_entries _ _ (Nat.le_refl _)
    · omega
  · simp only [cache_put_c, if_neg hcond]
    split
    · exact evictFuel_sublist _ _ _
    · exact List.Sublist.refl _
  · simp only [cache_put_c, if_neg hcond]
    split
    · exact evictFuel_oldest _ _ _
    · intro y hy hnot
      exact absurd hy hnot
  · intro cfg' h'
    simp [cache_put_c, h']
  · intro kv hkv
    simp only [cache_get_c, if_neg hcond, sweep] at hkv
    have := List.mem_filter.mp hkv
    simpa using this.2
  · intro kv hkv hage
    simp only [cache_get_c, if_neg hcond, sweep]
    exact List.mem_filter.mpr ⟨hkv, by simpa using hage⟩
  · intro r hr
    simp only [cache_get_c, if_neg hcond, sweep] at hr ⊢
    rcases hl : lookupA (c.filter
        (fun kv => now - kv.2.inserted_at ≤ cfg.cache_ttl_secs * 1000)) key with
      _ | e
    · rw [hl] at hr
      cases hr
    · rw [hl] at hr
      refine ⟨e, hl, by simpa using hr, ?_⟩
      have hmem := lookupA_mem _ _ _ hl
      have := List.mem_filter.mp hmem
      simpa using this.2

/-- Witness for C8 at a concrete input: capacity 1 forces eviction of the
older of two entries. -/
theorem cache_put_bound_oldest_ttl_witness :
    (0 < (120 : Nat) ∧ 0 < (1 : Nat)) ∧
    (cache_put_c ⟨0, 50, 3, 30000, 120, 1, false, 120⟩ 5 "k2" "r2"
      [("k1", ⟨"r1", 3⟩)]).length ≤ 1 := by
  exact ⟨⟨by decide, by decide⟩,
    (cache_put_bound_oldest_ttl ⟨0, 50, 3, 30000, 120, 1, false, 120⟩ 5 "k2" "r2"
      [("k1", ⟨"r1", 3⟩)] (by decide) (by decide)).1⟩

/-! ## Claim C7: immediate re-hit soundness — supporting lemmas -/

theorem setA_of_lookup_none {α : Type} (c : List (String × α)) (key : String)
    (v : α) (h : lookupA c key = none) : setA c key v = c ++ [(key, v)] := by
  induction c with
  | nil => simp [setA]
  | cons a t ih =>
    obtain ⟨k, w⟩ := a
    by_cases hk : k = key
    · simp [lookupA, hk] at h
    · simp only [lookupA, if_neg hk] at h
      simp [setA, hk, ih h]

theorem setA_length_of_lookup_some {α : Type} (c : List (String × α))
    (key : String) (v w : α) (h : lookupA c key = some w) :
    (setA c key v).length = c.length := by
  induction c with
  | nil => cases h
  | cons a t ih =>
    obtain ⟨k, u⟩ := a
    by_cases hk : k = key
    · simp [setA, hk]
    · simp only [lookupA, if_neg hk] at h
      simp [setA, hk, ih h]

theorem lookupA_append_of_none {α : Type} (l₁ l₂ : List (String × α))
    (key : String) (h : lookupA l₁ key = none) :
    lookupA (l₁ ++ l₂) key = lookupA l₂ key := by
  induction l₁ with
  | nil => simp
  | cons a t ih =>
    obtain ⟨k, w⟩ := a
    by_cases hk : k = key
    · simp [lookupA, hk] at h
    · simp only [lookupA, if_neg hk] at h
      simp [lookupA, hk, ih h]

theorem lookupA_ne_none_of_mem {α : Type} (l : List (String × α))
    (key : String) (v : α) (h : (key, v) ∈ l) : lookupA l key ≠ none := by
  induction l with
  | nil => cases h
  | cons a t ih =>
    obtain ⟨k, w⟩ := a
    rcases List.mem_cons.mp h with heq | hmem
    · obtain ⟨rfl, -⟩ := Prod.mk.injEq .. ▸ heq.symm
      simp [lookupA]
    · by_cases hk : k = key
      · simp [lookupA, hk]
      · simpa [lookupA, hk] using ih hmem

theorem lookupA_none_of_sublist {α : Type} (l' l : List (String × α))
    (key : String) (hs : List.Sublist l' l) (h : lookupA l key = none) :
    lookupA l' key = none := by
  rcases hl : lookupA l' key with _ | v
  · rfl
  · have hmem := lookupA_mem l' key v hl
    exact absurd h (lookupA_ne_none_of_mem l key v (hs.subset hmem))

theorem removeFirst_append_left (m : Nat)
    (l₁ l₂ : List (String × CacheEntry))
    (h : ∃ kv ∈ l₁, kv.2.inserted_at = m) :
    removeFirstWithTs m (l₁ ++ l₂) = removeFirstWithTs m l₁ ++ l₂ := by
  induction l₁ with
  | nil =>
    rcases h with ⟨kv, hm, -⟩
    cases hm
  | cons a t ih =>
    by_cases ha : a.2.inserted_at = m
    · simp [removeFirstWithTs, ha]
    · rcases h with ⟨kv, hm, hts⟩
      rcases List.mem_cons.mp hm with rfl | hmem
      · exact absurd hts ha
      · simp [removeFirstWithTs, ha, ih ⟨kv, hmem, hts⟩]

theorem mem_setA {α : Type} (c : List (String × α)) (key : String) (v : α)
    (y : String × α) (h : y ∈ setA c key v) : y ∈ c ∨ y = (key, v) := by
  induction c with
  | nil =>
    right
    simpa [setA] using h
  | cons a t ih =>
    obtain ⟨k, w⟩ := a
    by_cases hk : k = key
    · simp only [setA, if_pos hk] at h
      rcases List.mem_cons.mp h with rfl | hmem
      · right; rfl
      · left; exact List.mem_cons_of_mem _ hmem
    · simp only [setA, if_neg hk] at h
      rcases List.mem_cons.mp h with rfl | hmem
      · left; exact List.mem_cons_self _ _
      · rcases ih hmem with h1 | h1
        · left; exact List.mem_cons_of_mem _ h1
        · right; exact h1

theorem lookupA_filter (c : List (String × CacheEntry)) (key : String)
    (e : CacheEntry) (p : String × CacheEntry → Bool)
    (h : lookupA c key = some e) (hp : p (key, e) = true) :
    lookupA (c.filter p) key = some e := by
  induction c with
  | nil => cases h
  | cons a t ih =>
    obtain ⟨k, w⟩ := a
    by_cases hk : k = key
    · subst hk
      have he : w = e := by simpa [lookupA] using h
      subst he
      simp [List.filter_cons, hp, lookupA]
    · simp only [lookupA, if_neg hk] at h
      simp only [List.filter_cons]
      split
      · simp [lookupA, hk, ih h]
      · exact ih h

theorem evictFuel_of_le (maxE fuel : Nat) (c : List (String × CacheEntry))
    (h : c.length ≤ maxE) : evictFuel maxE fuel c = c := by
  cases fuel with
  | zero => rfl
  | succ f => simp [evictFuel, h]

theorem lookupA_cache_put (cfg : Config) (now : Nat) (key resp : String)
    (c : List (String × CacheEntry))
    (hT : 0 < cfg.cache_ttl_secs) (hM : 0 < cfg.cache_max_entries)
    (hwf : ∀ kv ∈ c, kv.2.inserted_at ≤ now)
    (hb : c.length ≤ cfg.cache_max_entries) :
    lookupA (cache_put_c cfg now key resp c) key = some ⟨resp, now⟩ := by
  have hcond : ¬(cfg.cache_ttl_secs = 0 ∨ cfg.cache_max_entries = 0) := by omega
  simp only [cache_put_c, if_neg hcond]
  rcases hl : lookupA c key with _ | w
  · have hsetA := setA_of_lookup_none c key ⟨resp, now⟩ hl
    rw [hsetA]
    by_cases hlen : (c ++ [(key, (⟨resp, now⟩ : CacheEntry))]).length >
        cfg.cache_max_entries
    · rw [if_pos hlen]
      have hclen : c.length = cfg.cache_max_entries := by
        simp only [List.length_append, List.length_singleton] at hlen
        omega
      have hne : c ≠ [] := by
        intro h0
        rw [h0] at hclen
        simp at hclen
        omega
      have hexists : ∃ kv ∈ c,
          kv.2.inserted_at = minTs (c ++ [(key, (⟨resp, now⟩ : CacheEntry))]) := by
        rcases minTs_mem (c ++ [(key, (⟨resp, now⟩ : CacheEntry))]) (by simp) with
          ⟨kv, hm, hts⟩
        rcases List.mem_append.mp hm with hmc | hmn
        · exact ⟨kv, hmc, hts⟩
        · have hkv : kv = (key, (⟨resp, now⟩ : CacheEntry)) := by simpa using hmn
          obtain ⟨a, t, rfl⟩ := List.exists_cons_of_ne_nil hne
          refine ⟨a, List.mem_cons_self _ _, ?_⟩
          have h1 : a.2.inserted_at ≤ now := hwf a (List.mem_cons_self _ _)
          have h2 : minTs ((a :: t) ++ [(key, (⟨resp, now⟩ : CacheEntry))]) ≤
              a.2.inserted_at :=
            minTs_le _ a (by simp)
          have h3 : minTs ((a :: t) ++ [(key, (⟨resp, now⟩ : CacheEntry))]) = now := by
            rw [← hts, hkv]
          omega
      have hrem := removeFirst_append_left
        (minTs (c ++ [(key, (⟨resp, now⟩ : CacheEntry))])) c
        [(key, (⟨resp, now⟩ : CacheEntry))] hexists
      have hremlen : (removeFirstWithTs
          (minTs (c ++ [(key, (⟨resp, now⟩ : CacheEntry))])) c).length + 1 =
          c.length :=
        removeFirstWithTs_length _ _ hexists
      have hev : evictOldest cfg.cache_max_entries
          (c ++ [(key, (⟨resp, now⟩ : CacheEntry))]) =
          removeFirstWithTs (minTs (c ++ [(key, (⟨resp, now⟩ : CacheEntry))])) c ++
            [(key, (⟨resp, now⟩ : CacheEntry))] := by
        rw [evictOldest]
        rw [show (c ++ [(key, (⟨resp, now⟩ : CacheEntry))]).length =
          cfg.cache_max_entries + 1 by simp [hclen]]
        simp only [evictFuel]
        rw [if_neg (by simp only [List.length_append, List.length_singleton]; omega)]
        rw [hrem]
        exact evictFuel_of_le _ _ _
          (by simp only [List.length_append, List.length_singleton]; omega)
      rw [hev]
      rw [lookupA_append_of_none _ _ _
        (lookupA_none_of_sublist _ _ _ (removeFirstWithTs_sublist _ c) hl)]
      simp [lookupA]
    · rw [if_neg hlen]
      rw [lookupA_append_of_none _ _ _ hl]
      simp [lookupA]
  · have hlen := setA_length_of_lookup_some c key ⟨resp, now⟩ w hl
    rw [if_neg (by omega)]
    exact lookupA_setA_self c key ⟨resp, now⟩

@[simp] theorem cache_put_cache (cfg : Config) (now : Nat) (k r : String)
    (st : EngineState) :
    (cache_put cfg now k r st).cache = cache_put_c cfg now k r st.cache := rfl

@[simp] theorem bumpTotal_st_cache (ls : LoopSt) :
    (bumpTotal ls).st.cache = ls.st.cache := rfl

@[simp] theorem hedgeGate_st_cache (cfg : Config) (now : Nat)
    (names : List String) (idx attempt : Nat) (ls : LoopSt) :
    (hedgeGate cfg now names idx attempt ls).2.st.cache = ls.st.cache := by
  simp only [hedgeGate]
  split
  · simp
  · rfl

@[simp] theorem pickOutcome_st_cache (w : World) (names : List String)
    (idx : Nat) (name : String) (useHedge : Bool) (ls : LoopSt) :
    (pickOutcome w names idx name useHedge ls).2.2.st.cache = ls.st.cache := by
  simp only [pickOutcome]
  split <;> (first | rfl | (split <;> rfl))

@[simp] theorem hedgeWinBump_st_cache (names : List String) (idx : Nat)
    (useHedge : Bool) (winnerName : String) (ls : LoopSt) :
    (hedgeWinBump names idx useHedge winnerName ls).st.cache = ls.st.cache := by
  simp only [hedgeWinBump]
  split <;> rfl

theorem runAttempts_cache (cfg : Config) (w : World) (now : Nat)
    (names : List String) (idx : Nat) (name key : String) :
    ∀ (fuel attempt : Nat) (ls : LoopSt) (res : Option String) (ls' : LoopSt),
      runAttempts cfg w now names idx name key attempt fuel ls = (res, ls') →
      (∀ r, res = some r → ls'.st.cache = cache_put_c cfg now key r ls.st.cache) ∧
      (res = none → ls'.st.cache = ls.st.cache) := by
  intro fuel
  induction fuel with
  | zero =>
    intro attempt ls res ls' heq
    simp only [runAttempts] at heq
    injection heq with h1 h2
    subst h1
    subst h2
    exact ⟨fun r hr => (nomatch hr), fun _ => rfl⟩
  | succ f ih =>
    intro attempt ls res ls' heq
    simp only [runAttempts] at heq
    repeat' split at heq
    all_goals
      first
        | (rcases ih _ _ _ _ heq with ⟨hsome, hnone⟩
           refine ⟨?_, ?_⟩
           · intro r hr
             rw [hsome r hr]
             simp
           · intro hr
             rw [hnone hr]
             simp)
        | (injection heq with h1 h2
           subst h1
           subst h2
           refine ⟨?_, ?_⟩
           · intro r hr
             simp_all
           · intro hr
             simp_all)

theorem providerLoop_cache (cfg : Config) (w : World) (now : Nat)
    (names : List String) (key : String) :
    ∀ (rest : List String) (idx : Nat) (ls : LoopSt) (res : Option String)
      (ls' : LoopSt),
      providerLoop cfg w now names key idx rest ls = (res, ls') →
      (∀ r, res = some r → ls'.st.cache = cache_put_c cfg now key r ls.st.cache) ∧
      (res = none → ls'.st.cache = ls.st.cache) := by
  intro rest
  induction rest with
  | nil =>
    intro idx ls res ls' heq
    simp only [providerLoop] at heq
    injection heq with h1 h2
    subst h1
    subst h2
    exact ⟨fun r hr => (nomatch hr), fun _ => rfl⟩
  | cons nm rest ih =>
    intro idx ls res ls' heq
    simp only [providerLoop] at heq
    split at heq
    · split at heq <;> rename_i hr
      · injection heq with h1 h2
        subst h1
        subst h2
        rcases runAttempts_cache cfg w now names idx nm key _ _ _ _ _ hr with
          ⟨hsome, -⟩
        refine ⟨fun r hrr => ?_, fun hrr => (nomatch hrr)⟩
        rw [hsome r hrr]
        simp
      · rcases runAttempts_cache cfg w now names idx nm key _ _ _ _ _ hr with
          ⟨-, hnone⟩
        rcases ih _ _ _ _ heq with ⟨hsome2, hnone2⟩
        have hc : _ = ls.st.cache := (hnone rfl).trans (by simp)
        refine ⟨fun r hrr => ?_, fun hrr => ?_⟩
        · rw [hsome2 r hrr, hc]
        · rw [hnone2 hrr, hc]
    · rcases ih _ _ _ _ heq with ⟨hsome2, hnone2⟩
      refine ⟨fun r hrr => ?_, fun hrr => ?_⟩
      · rw [hsome2 r hrr]
        simp
      · rw [hnone2 hrr]
        simp

/-- C7: with both cache parameters positive, if a request for `key`
returns `r`, an immediately subsequent request for the same `key` (same
instant, no intervening insertions) is served from the cache: it returns
`r`, invokes no provider (empty invocation log), bumps `cache_lookups`
and `cache_hits`, and leaves `total_calls` unchanged. -/
theorem cache_soundness_immediate_rehit (cfg : Config) (w w2 : World)
    (now : Nat) (names : List String) (key : String) (st : EngineState)
    (r : String)
    (hT : 0 < cfg.cache_ttl_secs) (hM : 0 < cfg.cache_max_entries)
    (hwf : ∀ kv ∈ st.cache, kv.2.inserted_at ≤ now)
    (hb : st.cache.length ≤ cfg.cache_max_entries)
    (h1 : (chat_request cfg w now names key st).result = .ok r) :
    (chat_request cfg w2 now names key
      (chat_request cfg w now names key st).state).result = .ok r ∧
    (chat_request cfg w2 now names key
      (chat_request cfg w now names key st).state).log = [] ∧
    (chat_request cfg w2 now names key
      (chat_request cfg w now names key st).state).state.total_calls =
      (chat_request cfg w now names key st).state.total_calls ∧
    (chat_request cfg w2 now names key
      (chat_request cfg w now names key st).state).state.cache_lookups =
      inc64 (chat_request cfg w now names key st).state.cache_lookups ∧
    (chat_request cfg w2 now names key
      (chat_request cfg w now names key st).state).state.cache_hits =
      inc64 (chat_request cfg w now names key st).state.cache_hits := by
  have hcond : ¬(cfg.cache_ttl_secs = 0 ∨ cfg.cache_max_entries = 0) := by omega
  have hswf : ∀ kv ∈ sweep (cfg.cache_ttl_secs * 1000) now st.cache,
      kv.2.inserted_at ≤ now := by
    intro kv hkv
    exact hwf kv (List.mem_filter.mp hkv).1
  have hsb : (sweep (cfg.cache_ttl_secs * 1000) now st.cache).length ≤
      cfg.cache_max_entries :=
    (List.length_filter_le _ _).trans hb
  have hkey : ∃ e : CacheEntry,
      lookupA (chat_request cfg w now names key st).state.cache key = some e ∧
      e.response = r ∧
      now - e.inserted_at ≤ cfg.cache_ttl_secs * 1000 ∧
      (∀ kv ∈ (chat_request cfg w now names key st).state.cache,
        kv.2.inserted_at ≤ now) := by
    rcases hp : cache_get_c cfg now key st.cache with ⟨hit, c2⟩
    have hp' := hp
    simp only [cache_get_c, if_neg hcond] at hp'
    injection hp' with hhit hc2
    cases hit with
    | some r0 =>
      simp only [chat_request, hp] at h1 ⊢
      have hr0 : r0 = r := by simpa using h1
      rcases Option.map_eq_some'.mp hhit with ⟨e, he, her⟩
      refine ⟨e, ?_, by rw [her, hr0], ?_, ?_⟩
      · rw [← hc2]
        exact he
      · have := List.mem_filter.mp (lookupA_mem _ _ _ he)
        simpa using this.2
      · intro kv hkv
        rw [← hc2] at hkv
        exact hswf kv hkv
    | none =>
      simp only [chat_request, hp] at h1 ⊢
      split at h1 <;> rename_i hq
      · rename_i resp lsq
        have hresp : resp = r := by simpa using h1
        simp only [hq]
        rcases providerLoop_cache cfg w now names key names 0 _ _ _ hq with
          ⟨hsome, -⟩
        have hcache : lsq.st.cache =
            cache_put_c cfg now key r (sweep (cfg.cache_ttl_secs * 1000) now st.cache) := by
          rw [hsome resp rfl, hresp]
          simp [← hc2]
        refine ⟨⟨r, now⟩, ?_, rfl, by simp, ?_⟩
        · rw [hcache]
          exact lookupA_cache_put cfg now key r _ hT hM hswf hsb
        · intro kv hkv
          rw [hcache] at hkv
          have hput := cache_put_bound_oldest_ttl cfg now key r
            (sweep (cfg.cache_ttl_secs * 1000) now st.cache) hT hM
          have hmem := hput.2.1.subset hkv
          rcases mem_setA _ _ _ _ hmem with hmc | hkv'
          · exact hswf kv hmc
          · rw [hkv']
      · exact absurd h1 (by simp)
  rcases hkey with ⟨e, he, her, hage, hwf1⟩
  set st1 := (chat_request cfg w now names key st).state with hst1
  have hp2 : cache_get_c cfg now key st1.cache =
      (some r, sweep (cfg.cache_ttl_secs * 1000) now st1.cache) := by
    simp only [cache_get_c, if_neg hcond]
    have hlf := lookupA_filter st1.cache key e
      (fun kv => decide (now - kv.2.inserted_at ≤ cfg.cache_ttl_secs * 1000))
      he (by simpa using hage)
    simp only [sweep, hlf]
    simp [her]
  simp [chat_request, hp2]

/-- Configuration for the C7 witness (`max_retries = 1`, defaults). -/
def cfgW7 : Config := ⟨1, 50, 3, 30000, 120, 256, false, 120⟩

/-- World for the C7 witness: one provider that always answers "cached". -/
def wW7 : World := ⟨fun _ _ => .ok "cached", fun _ => false⟩

/-- Witness for C7 at a concrete input. -/
theorem cache_soundness_immediate_rehit_witness :
    ((chat_request cfgW7 wW7 0 ["p"] "k" initState).result = .ok "cached") ∧
    (chat_request cfgW7 wW7 0 ["p"] "k"
      (chat_request cfgW7 wW7 0 ["p"] "k" initState).state).result =
      .ok "cached" := by
  refine ⟨by decide, ?_⟩
  exact (cache_soundness_immediate_rehit cfgW7 wW7 wW7 0 ["p"] "k" initState
    "cached" (by decide) (by decide)
    (by intro kv hkv; simp [initState] at hkv) (by decide) (by decide)).1
